import Mathlib

/-!
Verification development for the career_ai corpus.

Part 1 models the browser-side JavaScript that is present in the repository
(`escapeHtml`, the Skill Mapper fetch-response handlers, and the
admin-analytics series normalization).  Part 2 models the credit-debit-and-
refund workflow for asynchronous AI jobs; that workflow is described in the
repository only as prose (docs/backend_blueprint.md, docs/MASTER_BLUEPRINT.md
and the derived specification), so its definitions are modelled from the spec.
-/

namespace CareerAI

/-- Model of a JavaScript number: either a finite value (modelled as an
integer) or one of the non-finite values NaN, Infinity, -Infinity. -/
inductive JSNum where
  | fin (v : Int)
  | nan
  | inf
  | ninf
deriving DecidableEq, Repr

/-- Model of a JavaScript/JSON value as manipulated by the scripts in this
repository. -/
inductive JVal where
  | undefined
  | null
  | bool (b : Bool)
  | num (n : JSNum)
  | str (s : String)
  | arr (elems : List JVal)
  | obj (fields : List (String × JVal))

/-- JavaScript truthiness: `undefined`, `null`, `false`, `0`, `NaN` and the
empty string are falsy; every object and array is truthy. -/
def truthy : JVal → Bool
  | .undefined => false
  | .null => false
  | .bool b => b
  | .num (.fin v) => v != 0
  | .num .nan => false
  | .num .inf => true
  | .num .ninf => true
  | .str s => s != ""
  | .arr _ => true
  | .obj _ => true

/-- JavaScript property access `v[k]`: on an object the last binding of the
key wins (as after `JSON.parse`), anything else yields `undefined`. -/
def getField : JVal → String → JVal
  | .obj fields, k =>
      fields.foldl (fun acc kv => if kv.1 = k then kv.2 else acc) JVal.undefined
  | _, _ => .undefined

/-- The JavaScript `||` operator. -/
def jsOr (a b : JVal) : JVal := if truthy a then a else b

/-- The JavaScript `&&` operator. -/
def jsAnd (a b : JVal) : JVal := if truthy a then b else a

/-- Strict equality test against the literal `false`, as in `v === false`. -/
def isFalseLit : JVal → Bool
  | .bool false => true
  | _ => false

/-! ### escapeHtml (src/unnamed/part_001 and src/unnamed/part_003, lines 47-55) -/

/-- The ampersand character. -/
def ampChar : Char := '&'

/-- The less-than character. -/
def ltChar : Char := '<'

/-- The greater-than character. -/
def gtChar : Char := '>'

/-- The double-quote character. -/
def quoChar : Char := Char.ofNat 34

/-- The single-quote character. -/
def aposChar : Char := Char.ofNat 39

/-- The characters of the entity `&amp;`. -/
def ampEnt : List Char := [ampChar, 'a', 'm', 'p', ';']

/-- The characters of the entity `&lt;`. -/
def ltEnt : List Char := [ampChar, 'l', 't', ';']

/-- The characters of the entity `&gt;`. -/
def gtEnt : List Char := [ampChar, 'g', 't', ';']

/-- The characters of the entity `&quot;`. -/
def quotEnt : List Char := [ampChar, 'q', 'u', 'o', 't', ';']

/-- The characters of the entity `&#039;`. -/
def aposEnt : List Char := [ampChar, '#', '0', '3', '9', ';']

/-- `String.prototype.replace` with a global single-character pattern:
every occurrence of `c` is replaced by `r`. -/
def replaceAllChar (c : Char) (r : List Char) : List Char → List Char
  | [] => []
  | x :: xs => (if x = c then r else [x]) ++ replaceAllChar c r xs

/-- The chained replacements of `escapeHtml`, in source order: `&` first,
then `<`, `>`, `"` and the single quote. -/
def escapeHtmlData (s : List Char) : List Char :=
  replaceAllChar aposChar aposEnt
    (replaceAllChar quoChar quotEnt
      (replaceAllChar gtChar gtEnt
        (replaceAllChar ltChar ltEnt
          (replaceAllChar ampChar ampEnt s))))

/-- `escapeHtml` from src/unnamed/part_001 lines 47-55 (identical copy in
src/unnamed/part_003): non-strings map to the empty string, strings go
through the five chained replacements. -/
def escapeHtml : JVal → String
  | .str s => String.mk (escapeHtmlData s.data)
  | _ => ""

/-- A character that must never survive escaping: `<`, `>`, `"` or the
single quote. -/
def isBadChar (c : Char) : Bool :=
  c = ltChar || c = gtChar || c = quoChar || c = aposChar

/-- The tails (after the leading `&`) of the five entities the escaping can
introduce. -/
def entityTails : List (List Char) :=
  [ampEnt.tail, ltEnt.tail, gtEnt.tail, quotEnt.tail, aposEnt.tail]

/-- `startsWithChars p l` holds when `p` is a prefix of `l`. -/
def startsWithChars : List Char → List Char → Bool
  | [], _ => true
  | p :: ps, l =>
      match l with
      | [] => false
      | x :: xs => p == x && startsWithChars ps xs

/-- Every ampersand in the list starts one of the five escape entities. -/
def ampsOk : List Char → Bool
  | [] => true
  | c :: rest =>
      ((c != ampChar) || entityTails.any (fun t => startsWithChars t rest)) && ampsOk rest

/-- The per-character result of the full escaping chain. -/
def escChar (x : Char) : List Char :=
  if x = ampChar then ampEnt
  else if x = ltChar then ltEnt
  else if x = gtChar then gtEnt
  else if x = quoChar then quotEnt
  else if x = aposChar then aposEnt
  else [x]

/-! ### Skill Mapper fetch-response handlers
(src/unnamed/part_001 lines 582-674, identical in src/unnamed/part_003
lines 621-708).  `postJSON` resolves to `{ status, body }` where `body` is
the parsed JSON (or `{}` when parsing failed); the click handlers then run
the `.then` callbacks modelled here. -/

/-- What a handler's `.then` callback does with a response: either it shows
an error toast, or it renders the result panel (and shows a success toast). -/
inductive HandlerAction where
  | toastError (msg : JVal)
  | renderResult (data : JVal)

/-- Message shown by the free handler on a 402 status with no server-sent
error text. -/
def silverMsg : String := "Not enough Silver credits to run Skill Mapper."

/-- Generic failure message of the free handler. -/
def freeFailMsg : String := "Skill Mapper Free run failed."

/-- Message shown by the pro handler on a 403 status with no server-sent
error text. -/
def proPlanMsg : String := "Skill Mapper Pro requires an active Pro plan."

/-- Generic failure message of the pro handler. -/
def proFailMsg : String := "Skill Mapper Pro run failed."

/-- The free-run response callback: `var body = res.body || {}`, then
`if (!body || body.ok === false)` show an error toast with
`(body && body.error) || (status === 402 ? silverMsg : freeFailMsg)`,
otherwise `renderFreeResult(body.data || {})`. -/
def freeThen (status : Nat) (respBody : JVal) : HandlerAction :=
  let body := jsOr respBody (JVal.obj [])
  if !truthy body || isFalseLit (getField body "ok") then
    HandlerAction.toastError (jsOr (jsAnd body (getField body "error"))
      (JVal.str (if status = 402 then silverMsg else freeFailMsg)))
  else
    HandlerAction.renderResult (jsOr (getField body "data") (JVal.obj []))

/-- The pro-run response callback: same shape as `freeThen` with the 403
status check and pro-specific messages. -/
def proThen (status : Nat) (respBody : JVal) : HandlerAction :=
  let body := jsOr respBody (JVal.obj [])
  if !truthy body || isFalseLit (getField body "ok") then
    HandlerAction.toastError (jsOr (jsAnd body (getField body "error"))
      (JVal.str (if status = 403 then proPlanMsg else proFailMsg)))
  else
    HandlerAction.renderResult (jsOr (getField body "data") (JVal.obj []))

/-! ### admin_analytics.js helpers (src/static/js/admin_analytics.js) -/

/-- Model of the JavaScript `Number` builtin on the values of this corpus.
String coercion is modelled for optional-sign decimal integer literals
(other strings coerce to NaN); a one-element array coerces through its
element as `Number(String([x]))` does for numeric-like `x`; plain objects
coerce to NaN. -/
def jsNumber : JVal → JSNum
  | .num n => n
  | .bool true => .fin 1
  | .bool false => .fin 0
  | .null => .fin 0
  | .undefined => .nan
  | .str s =>
      let t := s.trim
      if t = "" then .fin 0
      else
        let core := if t.startsWith "-" || t.startsWith "+" then t.drop 1 else t
        let sign : Int := if t.startsWith "-" then -1 else 1
        if core.length > 0 && core.all Char.isDigit then
          .fin (sign * (core.foldl (fun a c => a * 10 + (c.toNat - 48)) (0 : Nat) : Nat))
        else .nan
  | .arr [] => .fin 0
  | .arr [x] => jsNumber x
  | .arr (_ :: _ :: _) => .nan
  | .obj _ => .nan

/-- `Number.isFinite` on a model number. -/
def jsIsFinite : JSNum → Bool
  | .fin _ => true
  | _ => false

/-- `toNumber` from admin_analytics.js lines 56-59: `Number(v)` when finite,
else the fallback (the call in `normalizeSeries` uses the default `0`). -/
def toNumber (v : JVal) (fallback : JSNum) : JSNum :=
  let n := jsNumber v
  if jsIsFinite n then n else fallback

/-- `asArray` from admin_analytics.js lines 52-54. -/
def asArray : JVal → List JVal
  | .arr xs => xs
  | _ => []

/-- The pair returned by `normalizeSeries`. -/
structure Series where
  labels : List JVal
  data : List JSNum

/-- `normalizeSeries` from admin_analytics.js lines 75-83: coerce both
inputs to arrays, map the data through `toNumber`, and truncate both to the
shorter length. -/
def normalizeSeries (labels data : JVal) : Series :=
  let l := asArray labels
  let d := (asArray data).map (fun v => toNumber v (JSNum.fin 0))
  let n := min l.length d.length
  { labels := l.take n, data := d.take n }

/-! ### Credit-gated job orchestrator

Modelled from the spec: the implementation of the credit-debit-and-refund
workflow is not part of this repository (docs/backend_blueprint.md sections
2.3, 2.4 and 4, docs/MASTER_BLUEPRINT.md section 4 and the derived
specification describe it in prose only), so every definition below is a
model of the specification's contract (spec sections 3 and 4): a wallet of
two integer balances, an append-only ledger whose entries' status field is
updated once per job outcome, a configuration-driven cost resolver, and the
orchestrator operations `runGatedFeature`, terminal settlement and top-up.
Audit-only attributes (entry id, metadata, timestamp, job payloads) and
storage-failure injection (LedgerWriteFailure/RefundFailure repair paths)
are not modelled. -/

/-- Modelled from the spec: the two credit pools, free (Silver) and paid
(Gold). -/
inductive Currency where
  | free
  | paid
deriving DecidableEq, Repr

/-- Modelled from the spec: the `kind` of a ledger entry. -/
inductive EntryKind where
  | debit
  | refund
  | topup
  | system
deriving DecidableEq, Repr

/-- Modelled from the spec: the `status` of a ledger entry. -/
inductive EntryStatus where
  | pending
  | completed
  | failed
  | refunded
deriving DecidableEq, Repr

/-- Modelled from the spec: the status of an async job. -/
inductive JobStatus where
  | queued
  | running
  | succeeded
  | failed
deriving DecidableEq, Repr

/-- Modelled from the spec: a plan tier (free, Pro Basic, Pro Advanced). -/
inductive PlanTier where
  | freeTier
  | proBasic
  | proAdvanced
deriving DecidableEq, Repr

/-- Modelled from the spec: a Wallet with the two independent balances.
Balances are integers so that non-negativity is a provable invariant
rather than a typing artifact. -/
structure Wallet where
  freeBalance : Int
  paidBalance : Int
deriving DecidableEq, Repr

/-- The balance of the given currency pool. -/
def Wallet.get (w : Wallet) : Currency → Int
  | .free => w.freeBalance
  | .paid => w.paidBalance

/-- Modelled from the spec: `credit(accountId, currency, amount)` — always
succeeds. -/
def Wallet.credit (w : Wallet) (cur : Currency) (amt : Int) : Wallet :=
  match cur with
  | .free => { w with freeBalance := w.freeBalance + amt }
  | .paid => { w with paidBalance := w.paidBalance + amt }

/-- Modelled from the spec: `debit(accountId, currency, amount)` — rejects
atomically (returns `none`, state untouched) when the balance would go
negative. -/
def Wallet.debit (w : Wallet) (cur : Currency) (amt : Int) : Option Wallet :=
  match cur with
  | .free =>
      if amt ≤ w.freeBalance then some { w with freeBalance := w.freeBalance - amt }
      else none
  | .paid =>
      if amt ≤ w.paidBalance then some { w with paidBalance := w.paidBalance - amt }
      else none

/-- Modelled from the spec: a LedgerEntry (audit-only attributes omitted). -/
structure LedgerEntry where
  accountId : Nat
  tenantId : Nat
  feature : String
  currency : Currency
  amount : Int
  kind : EntryKind
  runId : Nat
  status : EntryStatus
deriving DecidableEq, Repr

/-- Modelled from the spec: a Job record (payloads omitted). -/
structure Job where
  runId : Nat
  accountId : Nat
  feature : String
  status : JobStatus
deriving DecidableEq, Repr

/-- Modelled from the spec: one CostRule row of the feature cost table. -/
structure CostRule where
  feature : String
  tier : PlanTier
  currency : Currency
  amount : Int
deriving DecidableEq, Repr

/-- Modelled from the spec: `resolve(feature, planTier)` — a pure lookup in
the configuration; `none` is the `UnknownFeature` outcome. -/
def resolveCost (cfg : List CostRule) (feature : String) (tier : PlanTier) :
    Option (Currency × Int) :=
  match cfg.find? (fun r => r.feature == feature && r.tier == tier) with
  | some r => some (r.currency, r.amount)
  | none => none

/-- Modelled from the spec: the shared state the Orchestrator mutates:
per-account wallets, the transaction ledger, the job records, and the
fresh-`runId` counter. -/
structure OrchState where
  wallets : Nat → Wallet
  ledger : List LedgerEntry
  jobs : List Job
  nextRunId : Nat

/-- Modelled from the spec: the initial state — every wallet seeded with
the signup bonus in its free pool, empty ledger and job store. -/
def initState (signupBonus : Int) : OrchState :=
  { wallets := fun _ => { freeBalance := signupBonus, paidBalance := 0 },
    ledger := [], jobs := [], nextRunId := 0 }

/-- Modelled from the spec: the caller-facing result of `runGatedFeature`. -/
inductive RunResult where
  | jobStarted (runId : Nat)
  | insufficientCredits
  | configurationError
deriving DecidableEq, Repr

/-- `true` on the success result. -/
def RunResult.isStarted : RunResult → Bool
  | .jobStarted _ => true
  | _ => false

/-- Modelled from the spec: the terminal status the Job Runner reports for a
run — `succeeded` (possibly with the `degraded: true` fallback marker) or
`failed` after the Runner's internal retries are exhausted. -/
inductive JobOutcome where
  | succeeded (degraded : Bool)
  | failed
deriving DecidableEq, Repr

/-- Modelled from the spec: outcome of delivering a terminal callback. -/
inductive SettleResult where
  | settled
  | alreadySettled
  | unknownRun
deriving DecidableEq, Repr

/-- `findByRunId` restricted to the debit entry of a run. -/
def findDebit (ledger : List LedgerEntry) (rid : Nat) : Option LedgerEntry :=
  ledger.find? (fun e => e.runId == rid && e.kind == EntryKind.debit)

/-- Update the status of the debit entry for `rid` (the one status-field
update per job outcome the spec allows). -/
def setDebitStatus (ledger : List LedgerEntry) (rid : Nat) (st : EntryStatus) :
    List LedgerEntry :=
  ledger.map (fun e =>
    if e.runId == rid && e.kind == EntryKind.debit then { e with status := st } else e)

/-- Record the terminal status on the job record for `rid`. -/
def setJobStatus (jobs : List Job) (rid : Nat) (st : JobStatus) : List Job :=
  jobs.map (fun j => if j.runId == rid then { j with status := st } else j)

/-- The refund entry derived from a debit entry: same account, feature,
currency, amount and `runId`, with kind `refund` and status `refunded`. -/
def refundOf (e : LedgerEntry) : LedgerEntry :=
  { e with kind := EntryKind.refund, status := EntryStatus.refunded }

/-- The pending debit entry written by `runGatedFeature` on a successful
debit. -/
def debitEntryOf (acct tenant : Nat) (feature : String) (cur : Currency)
    (amt : Int) (rid : Nat) : LedgerEntry :=
  { accountId := acct, tenantId := tenant, feature := feature, currency := cur,
    amount := amt, kind := EntryKind.debit, runId := rid,
    status := EntryStatus.pending }

/-- The queued job record created by `runGatedFeature`. -/
def jobOf (acct : Nat) (feature : String) (rid : Nat) : Job :=
  { runId := rid, accountId := acct, feature := feature,
    status := JobStatus.queued }

/-- Modelled from the spec: `runGatedFeature` steps 1-4 — resolve the cost
(fail fast on `UnknownFeature` with no wallet touched), attempt the atomic
debit (return `InsufficientCredits` with no job created and no ledger entry
written), then write the pending debit entry and enqueue the job under a
fresh `runId`. -/
def runGatedFeature (cfg : List CostRule) (acct tenant : Nat) (feature : String)
    (tier : PlanTier) (s : OrchState) : RunResult × OrchState :=
  match resolveCost cfg feature tier with
  | none => (.configurationError, s)
  | some (cur, amt) =>
    match (s.wallets acct).debit cur amt with
    | none => (.insufficientCredits, s)
    | some w =>
      let rid := s.nextRunId
      (.jobStarted rid,
        { wallets := fun a => if a = acct then w else s.wallets a,
          ledger := s.ledger ++ [debitEntryOf acct tenant feature cur amt rid],
          jobs := s.jobs ++ [jobOf acct feature rid],
          nextRunId := rid + 1 })

/-- Modelled from the spec: `runGatedFeature` steps 5-7 — the terminal
callback.  The ledger entry's status is the idempotence guard: a run already
`completed` or `refunded` causes no wallet mutation.  On `succeeded` the
debit entry becomes `completed`; on `failed` the wallet is credited back the
full amount in the same currency and a refund entry with the same `runId`
is appended. -/
def onTerminal (rid : Nat) (outcome : JobOutcome) (s : OrchState) :
    SettleResult × OrchState :=
  match findDebit s.ledger rid with
  | none => (.unknownRun, s)
  | some e =>
    if e.status = .completed ∨ e.status = .refunded then
      (.alreadySettled, s)
    else
      match outcome with
      | .succeeded _ =>
        (.settled,
          { s with ledger := setDebitStatus s.ledger rid .completed,
                   jobs := setJobStatus s.jobs rid .succeeded })
      | .failed =>
        (.settled,
          { s with
              wallets := fun a =>
                if a = e.accountId then (s.wallets e.accountId).credit e.currency e.amount
                else s.wallets a,
              ledger := setDebitStatus s.ledger rid .refunded ++ [refundOf e],
              jobs := setJobStatus s.jobs rid .failed })

/-- Modelled from the spec: a top-up / daily-refill credit with its ledger
entry, under a fresh `runId`. -/
def topUp (acct tenant : Nat) (cur : Currency) (amt : Int) (s : OrchState) :
    OrchState :=
  let entry : LedgerEntry :=
    { accountId := acct, tenantId := tenant, feature := "topup", currency := cur,
      amount := amt, kind := .topup, runId := s.nextRunId, status := .completed }
  { wallets := fun a => if a = acct then (s.wallets acct).credit cur amt
               else s.wallets a,
    ledger := s.ledger ++ [entry],
    jobs := s.jobs,
    nextRunId := s.nextRunId + 1 }

/-- One Orchestrator operation, for sequences of operations. -/
inductive Op where
  | runFeature (acct tenant : Nat) (feature : String) (tier : PlanTier)
  | terminal (rid : Nat) (outcome : JobOutcome)
  | topup (acct tenant : Nat) (cur : Currency) (amt : Int)

/-- Apply one operation (discarding the caller-facing result). -/
def applyOp (cfg : List CostRule) (s : OrchState) : Op → OrchState
  | .runFeature a t f tier => (runGatedFeature cfg a t f tier s).2
  | .terminal rid oc => (onTerminal rid oc s).2
  | .topup a t cur amt => topUp a t cur amt s

/-- Apply a sequence of operations. -/
def applyOps (cfg : List CostRule) (s : OrchState) (ops : List Op) : OrchState :=
  ops.foldl (applyOp cfg) s

/-- A well-formed operation: top-up amounts are non-negative (debit and
refund amounts come from the configuration). -/
def WFOp : Op → Prop
  | .topup _ _ _ amt => 0 ≤ amt
  | _ => True

/-- Both balances of every wallet are non-negative. -/
def WalletsNonneg (s : OrchState) : Prop :=
  ∀ a, 0 ≤ (s.wallets a).freeBalance ∧ 0 ≤ (s.wallets a).paidBalance

/-- Every ledger entry's amount is non-negative (the spec requires positive
amounts; non-negative suffices for the balance invariant). -/
def LedgerAmountsNonneg (s : OrchState) : Prop :=
  ∀ e ∈ s.ledger, 0 ≤ e.amount

/-- The combined non-negativity invariant. -/
def StateNonneg (s : OrchState) : Prop :=
  WalletsNonneg s ∧ LedgerAmountsNonneg s

/-- Number of ledger entries of the given kind for the given run. -/
def countEntries (l : List LedgerEntry) (rid : Nat) (k : EntryKind) : Nat :=
  l.countP (fun e => e.runId == rid && e.kind == k)

/-- All ledger entries carry a `runId` below the fresh-id counter. -/
def RunIdsFresh (s : OrchState) : Prop :=
  ∀ e ∈ s.ledger, e.runId < s.nextRunId

/-- Whenever a refund entry exists for a run, the run's debit entry exists
and is marked `refunded` (so the idempotence guard blocks a second refund). -/
def RefundImpliesSettled (s : OrchState) : Prop :=
  ∀ rid : Nat, 0 < countEntries s.ledger rid .refund →
    ∃ e, findDebit s.ledger rid = some e ∧ e.status = .refunded

/-- At most one debit and at most one refund entry per run. -/
def LedgerUnique (s : OrchState) : Prop :=
  ∀ rid : Nat, countEntries s.ledger rid .debit ≤ 1
    ∧ countEntries s.ledger rid .refund ≤ 1

/-- The inductive ledger invariant. -/
def LedgerInv (s : OrchState) : Prop :=
  RunIdsFresh s ∧ RefundImpliesSettled s ∧ LedgerUnique s

/-- Run `n` identical gated-feature calls in sequence (the per-account
serialization order the spec mandates for concurrent calls), collecting the
caller-facing results. -/
def runMany (cfg : List CostRule) (acct tenant : Nat) (feature : String)
    (tier : PlanTier) : Nat → OrchState → List RunResult × OrchState
  | 0, s => ([], s)
  | n + 1, s =>
      let r := runGatedFeature cfg acct tenant feature tier s
      let rest := runMany cfg acct tenant feature tier n r.2
      (r.1 :: rest.1, rest.2)

end CareerAI

namespace CareerAI

theorem truthy_of_getField_ne (v : JVal) (k : String)
    (h : getField v k ≠ JVal.undefined) : truthy v = true := by
  cases v with
  | obj fs => rfl
  | undefined => simp [getField] at h
  | null => simp [getField] at h
  | bool b => simp [getField] at h
  | num n => simp [getField] at h
  | str s => simp [getField] at h
  | arr xs => simp [getField] at h

end CareerAI

namespace CareerAI

theorem replaceAllChar_append (c : Char) (r : List Char) (xs ys : List Char) :
    replaceAllChar c r (xs ++ ys) = replaceAllChar c r xs ++ replaceAllChar c r ys := by
  induction xs with
  | nil => simp [replaceAllChar]
  | cons x xs ih => simp [replaceAllChar, ih]

theorem escapeHtmlData_append (xs ys : List Char) :
    escapeHtmlData (xs ++ ys) = escapeHtmlData xs ++ escapeHtmlData ys := by
  simp [escapeHtmlData, replaceAllChar_append]

theorem escapeHtmlData_nil : escapeHtmlData [] = [] := rfl

theorem escapeHtmlData_singleton (x : Char) : escapeHtmlData [x] = escChar x := by
  by_cases hamp : x = ampChar
  · subst hamp; rfl
  · by_cases hlt : x = ltChar
    · subst hlt; rfl
    · by_cases hgt : x = gtChar
      · subst hgt; rfl
      · by_cases hquo : x = quoChar
        · subst hquo; rfl
        · by_cases hapos : x = aposChar
          · subst hapos; rfl
          · simp [escapeHtmlData, replaceAllChar, escChar,
              hamp, hlt, hgt, hquo, hapos]

theorem escapeHtmlData_cons (x : Char) (xs : List Char) :
    escapeHtmlData (x :: xs) = escChar x ++ escapeHtmlData xs := by
  have h : x :: xs = [x] ++ xs := rfl
  rw [h, escapeHtmlData_append, escapeHtmlData_singleton]

theorem escChar_no_bad (x : Char) : ∀ c ∈ escChar x, isBadChar c = false := by
  intro c hc
  by_cases h1 : x = ampChar
  · subst h1
    rw [show escChar ampChar = ampEnt from rfl] at hc
    simp only [ampEnt, List.mem_cons, List.not_mem_nil, or_false] at hc
    rcases hc with h | h | h | h | h <;> subst h <;> decide
  by_cases h2 : x = ltChar
  · subst h2
    rw [show escChar ltChar = ltEnt from rfl] at hc
    simp only [ltEnt, List.mem_cons, List.not_mem_nil, or_false] at hc
    rcases hc with h | h | h | h <;> subst h <;> decide
  by_cases h3 : x = gtChar
  · subst h3
    rw [show escChar gtChar = gtEnt from rfl] at hc
    simp only [gtEnt, List.mem_cons, List.not_mem_nil, or_false] at hc
    rcases hc with h | h | h | h <;> subst h <;> decide
  by_cases h4 : x = quoChar
  · subst h4
    rw [show escChar quoChar = quotEnt from rfl] at hc
    simp only [quotEnt, List.mem_cons, List.not_mem_nil, or_false] at hc
    rcases hc with h | h | h | h | h | h <;> subst h <;> decide
  by_cases h5 : x = aposChar
  · subst h5
    rw [show escChar aposChar = aposEnt from rfl] at hc
    simp only [aposEnt, List.mem_cons, List.not_mem_nil, or_false] at hc
    rcases hc with h | h | h | h | h | h <;> subst h <;> decide
  · simp only [escChar, h1, h2, h3, h4, h5, if_false, List.mem_singleton] at hc
    subst hc
    simp [isBadChar, h2, h3, h4, h5]

theorem ampsOk_escChar_append (x : Char) (rest : List Char)
    (h : ampsOk rest = true) : ampsOk (escChar x ++ rest) = true := by
  by_cases h1 : x = ampChar
  · subst h1; exact h
  by_cases h2 : x = ltChar
  · subst h2; exact h
  by_cases h3 : x = gtChar
  · subst h3; exact h
  by_cases h4 : x = quoChar
  · subst h4; exact h
  by_cases h5 : x = aposChar
  · subst h5; exact h
  · have hx : (x != ampChar) = true := by simp [h1]
    simp only [escChar, h1, h2, h3, h4, h5, if_false, List.singleton_append,
      ampsOk, hx, Bool.true_or, Bool.true_and]
    exact h

theorem escapeHtmlData_safe (s : List Char) :
    (∀ c ∈ escapeHtmlData s, isBadChar c = false)
    ∧ ampsOk (escapeHtmlData s) = true := by
  induction s with
  | nil =>
      exact ⟨fun c hc => absurd hc (List.not_mem_nil c), rfl⟩
  | cons x xs ih =>
      rw [escapeHtmlData_cons]
      constructor
      · intro c hc
        rcases List.mem_append.mp hc with h | h
        · exact escChar_no_bad x c h
        · exact ih.1 c h
      · exact ampsOk_escChar_append x _ ih.2

/-- C9: `escapeHtml` returns the empty string on every non-string input;
on strings its output contains no `<`, `>`, `"` or single-quote character,
and every `&` in the output starts one of the entities
`&amp;`, `&lt;`, `&gt;`, `&quot;`, `&#039;` introduced by the escaping
(the ampersand replacement runs first, so entity ampersands are never
re-escaped). -/
theorem escapeHtml_output_safe (v : JVal) :
    (∀ c ∈ (escapeHtml v).data, isBadChar c = false)
    ∧ ampsOk (escapeHtml v).data = true
    ∧ ((∀ s, v ≠ JVal.str s) → escapeHtml v = "") := by
  cases v with
  | str s =>
      exact ⟨(escapeHtmlData_safe s.data).1, (escapeHtmlData_safe s.data).2,
        fun h => absurd rfl (h s)⟩
  | undefined => exact ⟨fun c hc => absurd hc (List.not_mem_nil c), rfl, fun _ => rfl⟩
  | null => exact ⟨fun c hc => absurd hc (List.not_mem_nil c), rfl, fun _ => rfl⟩
  | bool b => exact ⟨fun c hc => absurd hc (List.not_mem_nil c), rfl, fun _ => rfl⟩
  | num n => exact ⟨fun c hc => absurd hc (List.not_mem_nil c), rfl, fun _ => rfl⟩
  | arr xs => exact ⟨fun c hc => absurd hc (List.not_mem_nil c), rfl, fun _ => rfl⟩
  | obj fs => exact ⟨fun c hc => absurd hc (List.not_mem_nil c), rfl, fun _ => rfl⟩

/-- Witness for C9 at concrete inputs: a number maps to the empty string and
the escaped form of `"a<b"` passes the ampersand/entity check. -/
theorem escapeHtml_output_safe_witness :
    escapeHtml (JVal.num (JSNum.fin 3)) = ""
    ∧ ampsOk (escapeHtml (JVal.str "a<b")).data = true :=
  ⟨(escapeHtml_output_safe (JVal.num (JSNum.fin 3))).2.2 (fun _ h => JVal.noConfusion h),
   (escapeHtml_output_safe (JVal.str "a<b")).2.1⟩

/-- C8 (amended): for every response whose parsed body has `ok === false`
and carries no `error` field, the free handler toasts the
insufficient-credits message exactly when the status is 402 and the generic
free-run failure message otherwise, and the pro handler toasts the
Pro-plan-required message exactly when the status is 403 and the generic
pro-run failure message otherwise; neither handler renders a result panel
in these cases. -/
theorem skillmapper_error_toasts (status : Nat) (body : JVal)
    (hok : getField body "ok" = JVal.bool false)
    (herr : getField body "error" = JVal.undefined) :
    freeThen status body =
      HandlerAction.toastError (JVal.str (if status = 402 then silverMsg else freeFailMsg))
    ∧ proThen status body =
      HandlerAction.toastError (JVal.str (if status = 403 then proPlanMsg else proFailMsg)) := by
  have ht : truthy body = true :=
    truthy_of_getField_ne body "ok" (by rw [hok]; intro h; cases h)
  have h1 : jsOr body (JVal.obj []) = body := by simp [jsOr, ht]
  have h2 : truthy JVal.undefined = false := rfl
  constructor <;>
    simp [freeThen, proThen, h1, hok, herr, isFalseLit, jsAnd, jsOr, ht, h2]

/-- Witness for C8's amended theorem: `{ ok: false }` with status 402 toasts
the Silver-credits message in the free handler, and with status 500 toasts
the generic failure message in the pro handler. -/
theorem skillmapper_error_toasts_witness :
    freeThen 402 (JVal.obj [("ok", JVal.bool false)])
      = HandlerAction.toastError (JVal.str silverMsg)
    ∧ proThen 500 (JVal.obj [("ok", JVal.bool false)])
      = HandlerAction.toastError (JVal.str proFailMsg) :=
  ⟨(skillmapper_error_toasts 402 (JVal.obj [("ok", JVal.bool false)]) rfl rfl).1,
   (skillmapper_error_toasts 500 (JVal.obj [("ok", JVal.bool false)]) rfl rfl).2⟩

/-- C8 counterexample: a response with an empty parsed body (`{}`, as
`postJSON` produces when JSON parsing fails) does not enter the error
branch even on status 402: both handlers render a result panel and
never toast the status-specific message, contradicting the claim's
"(or is empty)" clause. -/
theorem skillmapper_empty_body_renders :
    freeThen 402 (JVal.obj []) = HandlerAction.renderResult (JVal.obj [])
    ∧ proThen 403 (JVal.obj []) = HandlerAction.renderResult (JVal.obj []) :=
  ⟨rfl, rfl⟩

/-- C10: `normalizeSeries` returns label and data arrays of equal length,
namely the minimum of the two input lengths after treating non-array inputs
as empty; every returned data element is a finite number; and `toNumber`
maps every non-finite coercion to the fallback `0`. -/
theorem normalizeSeries_spec (labels dataV : JVal) :
    (normalizeSeries labels dataV).labels.length = (normalizeSeries labels dataV).data.length
    ∧ (normalizeSeries labels dataV).labels.length
        = min (asArray labels).length (asArray dataV).length
    ∧ (∀ x ∈ (normalizeSeries labels dataV).data, jsIsFinite x = true)
    ∧ (∀ v : JVal, jsIsFinite (jsNumber v) = false → toNumber v (JSNum.fin 0) = JSNum.fin 0) := by
  have hfin : ∀ v : JVal, jsIsFinite (toNumber v (JSNum.fin 0)) = true := by
    intro v
    unfold toNumber
    cases h : jsNumber v <;> rfl
  refine ⟨?_, ?_, ?_, ?_⟩
  · simp [normalizeSeries, List.length_take]
  · simp [normalizeSeries, List.length_take]
  · intro x hx
    simp only [normalizeSeries] at hx
    have hx' := List.mem_of_mem_take hx
    rcases List.mem_map.mp hx' with ⟨v, _, hv⟩
    subst hv
    exact hfin v
  · intro v h
    simp [toNumber, h]

/-- Witness for C10 at a concrete input: an `undefined` data element is
mapped to `0` and the arrays are truncated to the common length 1. -/
theorem normalizeSeries_spec_witness :
    (normalizeSeries (JVal.arr [JVal.str "a"])
        (JVal.arr [JVal.undefined, JVal.num (JSNum.fin 7)])).labels.length
      = (normalizeSeries (JVal.arr [JVal.str "a"])
        (JVal.arr [JVal.undefined, JVal.num (JSNum.fin 7)])).data.length
    ∧ toNumber JVal.undefined (JSNum.fin 0) = JSNum.fin 0 :=
  ⟨(normalizeSeries_spec (JVal.arr [JVal.str "a"])
      (JVal.arr [JVal.undefined, JVal.num (JSNum.fin 7)])).1,
   (normalizeSeries_spec (JVal.arr [JVal.str "a"])
      (JVal.arr [JVal.undefined, JVal.num (JSNum.fin 7)])).2.2.2 JVal.undefined rfl⟩

/-! ### Orchestrator lemmas -/

theorem resolveCost_mem (cfg : List CostRule) (feature : String) (tier : PlanTier)
    (cur : Currency) (amt : Int)
    (h : resolveCost cfg feature tier = some (cur, amt)) :
    ∃ r ∈ cfg, r.currency = cur ∧ r.amount = amt := by
  unfold resolveCost at h
  cases hf : cfg.find? (fun r => r.feature == feature && r.tier == tier) with
  | none => rw [hf] at h; cases h
  | some r =>
      rw [hf] at h
      simp only [Option.some.injEq, Prod.mk.injEq] at h
      exact ⟨r, List.mem_of_find?_eq_some hf, h.1, h.2⟩

theorem debit_nonneg {w w' : Wallet} {cur : Currency} {amt : Int}
    (h : w.debit cur amt = some w')
    (hw : 0 ≤ w.freeBalance ∧ 0 ≤ w.paidBalance) :
    0 ≤ w'.freeBalance ∧ 0 ≤ w'.paidBalance := by
  cases cur with
  | free =>
      simp only [Wallet.debit] at h
      by_cases hle : amt ≤ w.freeBalance
      · rw [if_pos hle] at h
        injection h with h
        subst h
        exact ⟨by show 0 ≤ w.freeBalance - amt; omega, hw.2⟩
      · rw [if_neg hle] at h; cases h
  | paid =>
      simp only [Wallet.debit] at h
      by_cases hle : amt ≤ w.paidBalance
      · rw [if_pos hle] at h
        injection h with h
        subst h
        exact ⟨hw.1, by show 0 ≤ w.paidBalance - amt; omega⟩
      · rw [if_neg hle] at h; cases h

theorem credit_nonneg {w : Wallet} {cur : Currency} {amt : Int} (hamt : 0 ≤ amt)
    (hw : 0 ≤ w.freeBalance ∧ 0 ≤ w.paidBalance) :
    0 ≤ (w.credit cur amt).freeBalance ∧ 0 ≤ (w.credit cur amt).paidBalance := by
  obtain ⟨h1, h2⟩ := hw
  cases cur with
  | free => exact ⟨by show 0 ≤ w.freeBalance + amt; omega, h2⟩
  | paid => exact ⟨h1, by show 0 ≤ w.paidBalance + amt; omega⟩

theorem credit_debit_cancel {w w' : Wallet} {cur : Currency} {amt : Int}
    (h : w.debit cur amt = some w') : w'.credit cur amt = w := by
  cases cur with
  | free =>
      simp only [Wallet.debit] at h
      by_cases hle : amt ≤ w.freeBalance
      · rw [if_pos hle] at h
        injection h with h
        subst h
        simp [Wallet.credit]
      · rw [if_neg hle] at h; cases h
  | paid =>
      simp only [Wallet.debit] at h
      by_cases hle : amt ≤ w.paidBalance
      · rw [if_pos hle] at h
        injection h with h
        subst h
        simp [Wallet.credit]
      · rw [if_neg hle] at h; cases h

theorem debit_get {w w' : Wallet} {cur : Currency} {amt : Int}
    (h : w.debit cur amt = some w') :
    w'.get cur = w.get cur - amt ∧ ∀ c, c ≠ cur → w'.get c = w.get c := by
  cases cur with
  | free =>
      simp only [Wallet.debit] at h
      by_cases hle : amt ≤ w.freeBalance
      · rw [if_pos hle] at h
        injection h with h
        subst h
        refine ⟨rfl, ?_⟩
        intro c hc
        cases c with
        | free => exact absurd rfl hc
        | paid => rfl
      · rw [if_neg hle] at h; cases h
  | paid =>
      simp only [Wallet.debit] at h
      by_cases hle : amt ≤ w.paidBalance
      · rw [if_pos hle] at h
        injection h with h
        subst h
        refine ⟨rfl, ?_⟩
        intro c hc
        cases c with
        | free => rfl
        | paid => exact absurd rfl hc
      · rw [if_neg hle] at h; cases h

theorem debit_none_of_lt {w : Wallet} {cur : Currency} {amt : Int}
    (h : w.get cur < amt) : w.debit cur amt = none := by
  cases cur with
  | free =>
      simp only [Wallet.get] at h
      simp only [Wallet.debit]
      rw [if_neg (by omega)]
  | paid =>
      simp only [Wallet.get] at h
      simp only [Wallet.debit]
      rw [if_neg (by omega)]

/-- C6: if `runGatedFeature` returns `InsufficientCredits` or the
`UnknownFeature`/`ConfigurationError` outcome, it returns it synchronously
with the state completely unchanged: no wallet mutation, no job created,
no ledger entry written. -/
theorem sync_errors_no_mutation (cfg : List CostRule) (acct tenant : Nat)
    (feature : String) (tier : PlanTier) (s : OrchState)
    (h : (runGatedFeature cfg acct tenant feature tier s).1 = RunResult.insufficientCredits
       ∨ (runGatedFeature cfg acct tenant feature tier s).1 = RunResult.configurationError) :
    (runGatedFeature cfg acct tenant feature tier s).2 = s := by
  cases hres : resolveCost cfg feature tier with
  | none => simp [runGatedFeature, hres]
  | some p =>
      obtain ⟨cur, amt⟩ := p
      cases hdeb : (s.wallets acct).debit cur amt with
      | none => simp [runGatedFeature, hres, hdeb]
      | some w =>
          exfalso
          rcases h with h | h <;> simp [runGatedFeature, hres, hdeb] at h

/-- Witness for C6: with an empty cost table every feature is unknown and
the state is returned untouched. -/
theorem sync_errors_no_mutation_witness :
    (runGatedFeature [] 0 0 "skill_mapper" PlanTier.freeTier (initState 5)).2
      = initState 5 :=
  sync_errors_no_mutation [] 0 0 "skill_mapper" PlanTier.freeTier (initState 5)
    (Or.inr rfl)

theorem stateNonneg_applyOp (cfg : List CostRule)
    (hcfg : ∀ r ∈ cfg, 0 ≤ r.amount) (s : OrchState) (hs : StateNonneg s)
    (op : Op) (hop : WFOp op) : StateNonneg (applyOp cfg s op) := by
  obtain ⟨hw, hl⟩ := hs
  cases op with
  | runFeature a t f tier =>
      show StateNonneg (runGatedFeature cfg a t f tier s).2
      cases hres : resolveCost cfg f tier with
      | none => simpa [runGatedFeature, hres] using ⟨hw, hl⟩
      | some p =>
          obtain ⟨cur, amt⟩ := p
          cases hdeb : (s.wallets a).debit cur amt with
          | none => simpa [runGatedFeature, hres, hdeb] using ⟨hw, hl⟩
          | some w =>
              obtain ⟨r, hr, hrc, hra⟩ := resolveCost_mem cfg f tier cur amt hres
              constructor
              · intro a'
                simp only [runGatedFeature, hres, hdeb]
                by_cases ha : a' = a
                · subst ha
                  simp only [if_pos rfl]
                  exact debit_nonneg hdeb (hw a')
                · simp only [if_neg ha]
                  exact hw a'
              · intro e he
                simp only [runGatedFeature, hres, hdeb, List.mem_append,
                  List.mem_singleton] at he
                rcases he with he | he
                · exact hl e he
                · subst he
                  show 0 ≤ amt
                  rw [← hra]
                  exact hcfg r hr
  | terminal rid oc =>
      show StateNonneg (onTerminal rid oc s).2
      cases hfind : findDebit s.ledger rid with
      | none => simpa [onTerminal, hfind] using ⟨hw, hl⟩
      | some e =>
          have hemem : e ∈ s.ledger :=
            List.mem_of_find?_eq_some hfind
          have heamt : 0 ≤ e.amount := hl e hemem
          by_cases hst : e.status = EntryStatus.completed ∨ e.status = EntryStatus.refunded
          · simpa [onTerminal, hfind, hst] using ⟨hw, hl⟩
          · have hamount : ∀ x ∈ setDebitStatus s.ledger rid EntryStatus.completed,
                0 ≤ x.amount := by
              intro x hx
              simp only [setDebitStatus, List.mem_map] at hx
              obtain ⟨y, hy, hxy⟩ := hx
              subst hxy
              by_cases hm : (y.runId == rid && y.kind == EntryKind.debit) = true
              · rw [if_pos hm]
                exact hl y hy
              · rw [if_neg hm]
                exact hl y hy
            have hamount' : ∀ x ∈ setDebitStatus s.ledger rid EntryStatus.refunded,
                0 ≤ x.amount := by
              intro x hx
              simp only [setDebitStatus, List.mem_map] at hx
              obtain ⟨y, hy, hxy⟩ := hx
              subst hxy
              by_cases hm : (y.runId == rid && y.kind == EntryKind.debit) = true
              · rw [if_pos hm]
                exact hl y hy
              · rw [if_neg hm]
                exact hl y hy
            cases oc with
            | succeeded d =>
                have hstep : (onTerminal rid (JobOutcome.succeeded d) s).2
                    = { s with ledger := setDebitStatus s.ledger rid EntryStatus.completed,
                               jobs := setJobStatus s.jobs rid JobStatus.succeeded } := by
                  simp [onTerminal, hfind, hst]
                rw [hstep]
                exact ⟨fun a' => hw a', fun x hx => hamount x hx⟩
            | failed =>
                have hstep : (onTerminal rid JobOutcome.failed s).2
                    = { s with
                        wallets := fun a =>
                          if a = e.accountId
                          then (s.wallets e.accountId).credit e.currency e.amount
                          else s.wallets a,
                        ledger := setDebitStatus s.ledger rid EntryStatus.refunded
                          ++ [refundOf e],
                        jobs := setJobStatus s.jobs rid JobStatus.failed } := by
                  simp [onTerminal, hfind, hst]
                rw [hstep]
                constructor
                · intro a'
                  show 0 ≤ (if a' = e.accountId
                      then (s.wallets e.accountId).credit e.currency e.amount
                      else s.wallets a').freeBalance ∧ _
                  by_cases ha : a' = e.accountId
                  · simp only [if_pos ha]
                    exact credit_nonneg heamt (hw e.accountId)
                  · simp only [if_neg ha]
                    exact hw a'
                · intro x hx
                  simp only [List.mem_append, List.mem_singleton] at hx
                  rcases hx with hx | hx
                  · exact hamount' x hx
                  · subst hx
                    exact heamt

  | topup a t cur amt =>
      have hamt : 0 ≤ amt := hop
      show StateNonneg (topUp a t cur amt s)
      constructor
      · intro a'
        show 0 ≤ (if a' = a then (s.wallets a).credit cur amt else s.wallets a').freeBalance
          ∧ 0 ≤ (if a' = a then (s.wallets a).credit cur amt else s.wallets a').paidBalance
        by_cases ha : a' = a
        · simp only [if_pos ha]
          exact credit_nonneg hamt (hw a)
        · simp only [if_neg ha]
          exact hw a'
      · intro e he
        simp only [topUp, List.mem_append, List.mem_singleton] at he
        rcases he with he | he
        · exact hl e he
        · subst he
          exact hamt

theorem stateNonneg_applyOps (cfg : List CostRule)
    (hcfg : ∀ r ∈ cfg, 0 ≤ r.amount) (s : OrchState) (hs : StateNonneg s)
    (ops : List Op) (hops : ∀ op ∈ ops, WFOp op) :
    StateNonneg (applyOps cfg s ops) := by
  induction ops generalizing s with
  | nil => exact hs
  | cons op ops ih =>
      have h1 : StateNonneg (applyOp cfg s op) :=
        stateNonneg_applyOp cfg hcfg s hs op (hops op (List.mem_cons_self op ops))
      exact ih (applyOp cfg s op) h1 (fun o ho => hops o (List.mem_cons_of_mem op ho))

/-- C1: starting from any state with non-negative balances and ledger
amounts (in particular the initial state), after any sequence of
Orchestrator operations both balances of every wallet are still
non-negative; and a debit that would make a balance negative is rejected
atomically, returning `InsufficientCredits` and leaving the entire state —
hence both balances — unchanged. -/
theorem wallet_balances_nonneg (cfg : List CostRule)
    (hcfg : ∀ r ∈ cfg, 0 ≤ r.amount) (s : OrchState) (hs : StateNonneg s)
    (ops : List Op) (hops : ∀ op ∈ ops, WFOp op) :
    WalletsNonneg (applyOps cfg s ops)
    ∧ (∀ acct tenant feature tier cur amt,
        resolveCost cfg feature tier = some (cur, amt) →
        Wallet.get ((applyOps cfg s ops).wallets acct) cur < amt →
        runGatedFeature cfg acct tenant feature tier (applyOps cfg s ops)
          = (RunResult.insufficientCredits, applyOps cfg s ops)) := by
  refine ⟨(stateNonneg_applyOps cfg hcfg s hs ops hops).1, ?_⟩
  intro acct tenant feature tier cur amt hres hlt
  have hdeb : ((applyOps cfg s ops).wallets acct).debit cur amt = none :=
    debit_none_of_lt hlt
  simp [runGatedFeature, hres, hdeb]

/-- Witness for C1: one run of a feature costing 1 from the signup-bonus
state keeps balances non-negative, and a second run of a feature costing 2
is rejected with the state unchanged. -/
theorem wallet_balances_nonneg_witness :
    (0 ≤ ((applyOps [⟨"skill_mapper", PlanTier.freeTier, Currency.free, 1⟩]
        (initState 1) [Op.runFeature 0 0 "skill_mapper" PlanTier.freeTier]).wallets 0).freeBalance)
    ∧ runGatedFeature [⟨"skill_mapper", PlanTier.freeTier, Currency.free, 1⟩] 0 0
        "skill_mapper" PlanTier.freeTier
        (applyOps [⟨"skill_mapper", PlanTier.freeTier, Currency.free, 1⟩]
          (initState 1) [Op.runFeature 0 0 "skill_mapper" PlanTier.freeTier])
      = (RunResult.insufficientCredits,
         applyOps [⟨"skill_mapper", PlanTier.freeTier, Currency.free, 1⟩]
          (initState 1) [Op.runFeature 0 0 "skill_mapper" PlanTier.freeTier]) := by
  have h := wallet_balances_nonneg
    [⟨"skill_mapper", PlanTier.freeTier, Currency.free, 1⟩]
    (by intro r hr; simp only [List.mem_singleton] at hr; subst hr; norm_num)
    (initState 1)
    ⟨fun a => ⟨by norm_num [initState], by norm_num [initState]⟩,
     fun e he => absurd he (List.not_mem_nil e)⟩
    [Op.runFeature 0 0 "skill_mapper" PlanTier.freeTier]
    (fun op hop => by
      simp only [List.mem_singleton] at hop
      subst hop
      trivial)
  refine ⟨(h.1 0).1, h.2 0 0 "skill_mapper" PlanTier.freeTier Currency.free 1 rfl ?_⟩
  show Wallet.get _ Currency.free < 1
  norm_num [applyOps, applyOp, runGatedFeature, resolveCost, initState,
    Wallet.debit, Wallet.get, List.find?]

theorem runGatedFeature_started (cfg : List CostRule) (acct tenant : Nat)
    (feature : String) (tier : PlanTier) (s : OrchState) (rid : Nat)
    (s1 : OrchState)
    (h : runGatedFeature cfg acct tenant feature tier s
      = (RunResult.jobStarted rid, s1)) :
    ∃ cur amt w,
      resolveCost cfg feature tier = some (cur, amt)
      ∧ (s.wallets acct).debit cur amt = some w
      ∧ rid = s.nextRunId
      ∧ s1.wallets = (fun a => if a = acct then w else s.wallets a)
      ∧ s1.ledger = s.ledger ++ [debitEntryOf acct tenant feature cur amt rid]
      ∧ s1.jobs = s.jobs ++ [jobOf acct feature rid]
      ∧ s1.nextRunId = rid + 1 := by
  cases hres : resolveCost cfg feature tier with
  | none =>
      rw [runGatedFeature.eq_def, hres] at h
      simp at h
  | some p =>
      obtain ⟨cur, amt⟩ := p
      cases hdeb : (s.wallets acct).debit cur amt with
      | none =>
          rw [runGatedFeature.eq_def, hres] at h
          simp [hdeb] at h
      | some w =>
          rw [runGatedFeature.eq_def, hres] at h
          simp only [hdeb, Prod.mk.injEq, RunResult.jobStarted.injEq] at h
          obtain ⟨h1, h2⟩ := h
          subst h1
          refine ⟨cur, amt, w, ?_, hdeb, rfl, ?_, ?_, ?_, ?_⟩ <;>
            first
            | rfl
            | rw [← h2]

theorem findDebit_append_debit (l : List LedgerEntry) (acct tenant : Nat)
    (feature : String) (cur : Currency) (amt : Int) (rid : Nat)
    (hl : ∀ e ∈ l, e.runId ≠ rid) :
    findDebit (l ++ [debitEntryOf acct tenant feature cur amt rid]) rid
      = some (debitEntryOf acct tenant feature cur amt rid) := by
  unfold findDebit
  rw [List.find?_append]
  have h1 : l.find? (fun e => e.runId == rid && e.kind == EntryKind.debit) = none := by
    rw [List.find?_eq_none]
    intro x hx
    simp [hl x hx]
  rw [h1]
  simp [debitEntryOf]

theorem countEntries_setDebitStatus (l : List LedgerEntry) (rid : Nat)
    (st : EntryStatus) (r : Nat) (k : EntryKind) :
    countEntries (setDebitStatus l rid st) r k = countEntries l r k := by
  unfold countEntries setDebitStatus
  rw [List.countP_map]
  congr 1
  funext e
  by_cases hm : (e.runId == rid && e.kind == EntryKind.debit) = true
  · simp [Function.comp, hm]
  · simp [Function.comp, hm]

theorem countEntries_append (l1 l2 : List LedgerEntry) (r : Nat) (k : EntryKind) :
    countEntries (l1 ++ l2) r k = countEntries l1 r k + countEntries l2 r k := by
  unfold countEntries
  exact List.countP_append _ _ _

theorem countEntries_fresh (l : List LedgerEntry) (n : Nat)
    (h : ∀ e ∈ l, e.runId < n) (k : EntryKind) : countEntries l n k = 0 := by
  unfold countEntries
  rw [List.countP_eq_zero]
  intro e he
  have := h e he
  simp only [Bool.and_eq_true, beq_iff_eq]
  intro hc
  omega

theorem findDebit_setDebitStatus (l : List LedgerEntry) (rid : Nat)
    (st : EntryStatus) :
    findDebit (setDebitStatus l rid st) rid
      = (findDebit l rid).map (fun e => { e with status := st }) := by
  unfold findDebit setDebitStatus
  rw [List.find?_map]
  have hpf : ((fun e : LedgerEntry => e.runId == rid && e.kind == EntryKind.debit) ∘
      (fun e => if (e.runId == rid && e.kind == EntryKind.debit) = true
        then { e with status := st } else e))
      = (fun e : LedgerEntry => e.runId == rid && e.kind == EntryKind.debit) := by
    funext e
    by_cases hm : (e.runId == rid && e.kind == EntryKind.debit) = true
    · simp [Function.comp, hm]
    · simp [Function.comp, hm]
  rw [hpf]
  cases hf : l.find? (fun e => e.runId == rid && e.kind == EntryKind.debit) with
  | none => rfl
  | some e =>
      have hp := List.find?_some hf
      show some (if (e.runId == rid && e.kind == EntryKind.debit) = true
          then { e with status := st } else e) = some { e with status := st }
      rw [if_pos hp]

/-- C2: for a run whose debit succeeded, when the Job Runner reports the
terminal status `failed` the Orchestrator settles by issuing exactly one
full refund of the same amount and currency — the refund entries for that
`runId` are exactly the one refund of the run's debit entry — and every
wallet is restored to its pre-debit value, so the net balance change for
the run is `0`. -/
theorem failed_job_refund (cfg : List CostRule) (acct tenant : Nat)
    (feature : String) (tier : PlanTier) (s : OrchState) (rid : Nat)
    (s1 : OrchState) (hfresh : RunIdsFresh s)
    (hrun : runGatedFeature cfg acct tenant feature tier s
      = (RunResult.jobStarted rid, s1)) :
    (onTerminal rid JobOutcome.failed s1).1 = SettleResult.settled
    ∧ (onTerminal rid JobOutcome.failed s1).2.wallets = s.wallets
    ∧ ∃ cur amt,
        resolveCost cfg feature tier = some (cur, amt)
        ∧ (onTerminal rid JobOutcome.failed s1).2.ledger.filter
            (fun e => e.runId == rid && e.kind == EntryKind.refund)
          = [refundOf (debitEntryOf acct tenant feature cur amt rid)] := by
  obtain ⟨cur, amt, w, hres, hdeb, hrid, hws, hledg, hjobs, hnext⟩ :=
    runGatedFeature_started cfg acct tenant feature tier s rid s1 hrun
  have hne : ∀ e ∈ s.ledger, e.runId ≠ rid := by
    intro e he
    have := hfresh e he
    omega
  have hfind : findDebit s1.ledger rid
      = some (debitEntryOf acct tenant feature cur amt rid) := by
    rw [hledg]
    exact findDebit_append_debit s.ledger acct tenant feature cur amt rid hne
  have hst : ¬((debitEntryOf acct tenant feature cur amt rid).status
        = EntryStatus.completed
      ∨ (debitEntryOf acct tenant feature cur amt rid).status
        = EntryStatus.refunded) := by
    simp [debitEntryOf]
  have hstep : onTerminal rid JobOutcome.failed s1
      = (SettleResult.settled,
         { s1 with
             wallets := fun a =>
               if a = acct
               then (s1.wallets acct).credit cur amt
               else s1.wallets a,
             ledger := setDebitStatus s1.ledger rid EntryStatus.refunded
               ++ [refundOf (debitEntryOf acct tenant feature cur amt rid)],
             jobs := setJobStatus s1.jobs rid JobStatus.failed }) := by
    rw [onTerminal.eq_def, hfind]
    simp only [hst, if_false, ite_false]
    rfl
  refine ⟨by rw [hstep], ?_, cur, amt, hres, ?_⟩
  · rw [hstep]
    show (fun a => if a = acct then (s1.wallets acct).credit cur amt else s1.wallets a)
        = s.wallets
    funext a
    rw [hws]
    by_cases ha : a = acct
    · subst ha
      simp only [if_pos rfl]
      exact credit_debit_cancel hdeb
    · simp only [if_neg ha]
  · rw [hstep]
    show (setDebitStatus s1.ledger rid EntryStatus.refunded
        ++ [refundOf (debitEntryOf acct tenant feature cur amt rid)]).filter
        (fun e => e.runId == rid && e.kind == EntryKind.refund)
      = [refundOf (debitEntryOf acct tenant feature cur amt rid)]
    rw [List.filter_append]
    have h1 : (setDebitStatus s1.ledger rid EntryStatus.refunded).filter
        (fun e => e.runId == rid && e.kind == EntryKind.refund) = [] := by
      rw [List.filter_eq_nil_iff]
      intro x hx
      simp only [setDebitStatus, List.mem_map] at hx
      obtain ⟨y, hy, hxy⟩ := hx
      rw [hledg] at hy
      rcases List.mem_append.mp hy with hy | hy
      · have hyne := hne y hy
        subst hxy
        by_cases hm : (y.runId == rid && y.kind == EntryKind.debit) = true
        · simp only [if_pos hm]
          simp [hyne]
        · simp only [if_neg hm]
          simp [hyne]
      · rw [List.mem_singleton] at hy
        subst hy hxy
        by_cases hm : ((debitEntryOf acct tenant feature cur amt rid).runId == rid
            && (debitEntryOf acct tenant feature cur amt rid).kind == EntryKind.debit) = true
        · simp only [if_pos hm]
          simp [debitEntryOf]
        · simp only [if_neg hm]
          simp [debitEntryOf]
    rw [h1]
    simp [refundOf, debitEntryOf]

/-- Witness for C2: an account with one free credit runs a feature costing
one credit; the job fails; the free balance is back to its pre-debit
value. -/
theorem failed_job_refund_witness :
    ((onTerminal 0 JobOutcome.failed
        (runGatedFeature [⟨"skill_mapper", PlanTier.freeTier, Currency.free, 1⟩]
          0 0 "skill_mapper" PlanTier.freeTier (initState 1)).2).2.wallets
      = (initState 1).wallets) :=
  (failed_job_refund [⟨"skill_mapper", PlanTier.freeTier, Currency.free, 1⟩]
    0 0 "skill_mapper" PlanTier.freeTier (initState 1) 0
    (runGatedFeature [⟨"skill_mapper", PlanTier.freeTier, Currency.free, 1⟩]
      0 0 "skill_mapper" PlanTier.freeTier (initState 1)).2
    (fun e he => absurd he (List.not_mem_nil e))
    rfl).2.1

/-- C3: for a run whose debit succeeded, when the Job Runner reports the
terminal status `succeeded` (degraded or not) the Orchestrator completes
the run without issuing any refund: the charged pool of the account ends
exactly `cost` below its pre-debit value, every other pool and account is
unchanged, and no refund entry exists for the `runId`. -/
theorem succeeded_job_charged (cfg : List CostRule) (acct tenant : Nat)
    (feature : String) (tier : PlanTier) (s : OrchState) (rid : Nat)
    (s1 : OrchState) (degraded : Bool) (hfresh : RunIdsFresh s)
    (hrun : runGatedFeature cfg acct tenant feature tier s
      = (RunResult.jobStarted rid, s1)) :
    (onTerminal rid (JobOutcome.succeeded degraded) s1).1 = SettleResult.settled
    ∧ ∃ cur amt,
        resolveCost cfg feature tier = some (cur, amt)
        ∧ Wallet.get ((onTerminal rid (JobOutcome.succeeded degraded) s1).2.wallets acct) cur
            = Wallet.get (s.wallets acct) cur - amt
        ∧ (∀ c, c ≠ cur →
            Wallet.get ((onTerminal rid (JobOutcome.succeeded degraded) s1).2.wallets acct) c
              = Wallet.get (s.wallets acct) c)
        ∧ (∀ a, a ≠ acct →
            (onTerminal rid (JobOutcome.succeeded degraded) s1).2.wallets a = s.wallets a)
        ∧ countEntries (onTerminal rid (JobOutcome.succeeded degraded) s1).2.ledger
            rid EntryKind.refund = 0 := by
  obtain ⟨cur, amt, w, hres, hdeb, hrid, hws, hledg, hjobs, hnext⟩ :=
    runGatedFeature_started cfg acct tenant feature tier s rid s1 hrun
  have hne : ∀ e ∈ s.ledger, e.runId ≠ rid := by
    intro e he
    have := hfresh e he
    omega
  have hfind : findDebit s1.ledger rid
      = some (debitEntryOf acct tenant feature cur amt rid) := by
    rw [hledg]
    exact findDebit_append_debit s.ledger acct tenant feature cur amt rid hne
  have hst : ¬((debitEntryOf acct tenant feature cur amt rid).status
        = EntryStatus.completed
      ∨ (debitEntryOf acct tenant feature cur amt rid).status
        = EntryStatus.refunded) := by
    simp [debitEntryOf]
  have hstep : onTerminal rid (JobOutcome.succeeded degraded) s1
      = (SettleResult.settled,
         { s1 with
             ledger := setDebitStatus s1.ledger rid EntryStatus.completed,
             jobs := setJobStatus s1.jobs rid JobStatus.succeeded }) := by
    rw [onTerminal.eq_def, hfind]
    simp only [hst, if_false, ite_false]
  have hget := debit_get hdeb
  refine ⟨by rw [hstep], cur, amt, hres, ?_, ?_, ?_, ?_⟩
  · rw [hstep]
    show Wallet.get (s1.wallets acct) cur = _
    rw [hws]
    simp only [if_pos rfl]
    exact hget.1
  · intro c hc
    rw [hstep]
    show Wallet.get (s1.wallets acct) c = _
    rw [hws]
    simp only [if_pos rfl]
    exact hget.2 c hc
  · intro a ha
    rw [hstep]
    show s1.wallets a = _
    rw [hws]
    simp only [if_neg ha]
  · rw [hstep]
    show countEntries (setDebitStatus s1.ledger rid EntryStatus.completed)
        rid EntryKind.refund = 0
    rw [countEntries_setDebitStatus, hledg, countEntries_append]
    have h1 : countEntries s.ledger rid EntryKind.refund = 0 := by
      unfold countEntries
      rw [List.countP_eq_zero]
      intro e he
      simp only [Bool.and_eq_true, beq_iff_eq]
      intro hc
      exact absurd hc.1 (hne e he)
    have h2 : countEntries [debitEntryOf acct tenant feature cur amt rid]
        rid EntryKind.refund = 0 := by
      unfold countEntries
      simp [debitEntryOf]
    rw [h1, h2]

/-- Witness for C3: an account with one free credit runs a feature costing
one credit; the job succeeds; the free balance ends one below its pre-debit
value. -/
theorem succeeded_job_charged_witness :
    (onTerminal 0 (JobOutcome.succeeded false)
        (runGatedFeature [⟨"skill_mapper", PlanTier.freeTier, Currency.free, 1⟩]
          0 0 "skill_mapper" PlanTier.freeTier (initState 1)).2).1
      = SettleResult.settled :=
  (succeeded_job_charged [⟨"skill_mapper", PlanTier.freeTier, Currency.free, 1⟩]
    0 0 "skill_mapper" PlanTier.freeTier (initState 1) 0
    (runGatedFeature [⟨"skill_mapper", PlanTier.freeTier, Currency.free, 1⟩]
      0 0 "skill_mapper" PlanTier.freeTier (initState 1)).2
    false
    (fun e he => absurd he (List.not_mem_nil e))
    rfl).1

theorem findDebit_append_nondebit (l : List LedgerEntry) (x : LedgerEntry)
    (rid : Nat) (hx : (x.kind == EntryKind.debit) = false) :
    findDebit (l ++ [x]) rid = findDebit l rid := by
  unfold findDebit
  rw [List.find?_append]
  cases hf : l.find? (fun e => e.runId == rid && e.kind == EntryKind.debit) with
  | some e => rfl
  | none =>
      have hpx : (fun e : LedgerEntry => e.runId == rid && e.kind == EntryKind.debit) x
          = false := by
        simp only [hx, Bool.and_false]
      simp [List.find?_cons, hpx]

/-- C4: delivering the same terminal callback twice for one `runId`
produces the same state — ledger and wallet balances — as delivering it
once; and whenever the run's debit entry is already `completed` or
`refunded`, the Orchestrator performs no mutation at all and reports the
run as already settled. -/
theorem terminal_callback_idempotent (rid : Nat) (oc : JobOutcome)
    (s : OrchState) :
    (onTerminal rid oc (onTerminal rid oc s).2).2 = (onTerminal rid oc s).2
    ∧ (∀ e, findDebit s.ledger rid = some e →
        e.status = EntryStatus.completed ∨ e.status = EntryStatus.refunded →
        onTerminal rid oc s = (SettleResult.alreadySettled, s)) := by
  constructor
  · cases hf : findDebit s.ledger rid with
    | none =>
        have h0 : onTerminal rid oc s = (SettleResult.unknownRun, s) := by
          rw [onTerminal.eq_def, hf]
        have h2 : (onTerminal rid oc s).2 = s := by rw [h0]
        rw [h2]
        exact h2
    | some e =>
        by_cases hst : e.status = EntryStatus.completed ∨ e.status = EntryStatus.refunded
        · have h0 : onTerminal rid oc s = (SettleResult.alreadySettled, s) := by
            rw [onTerminal.eq_def, hf]
            simp [hst]
          have h2 : (onTerminal rid oc s).2 = s := by rw [h0]
          rw [h2]
          exact h2
        · cases oc with
          | succeeded d =>
              have h0 : onTerminal rid (JobOutcome.succeeded d) s
                  = (SettleResult.settled,
                     { s with ledger := setDebitStatus s.ledger rid EntryStatus.completed,
                              jobs := setJobStatus s.jobs rid JobStatus.succeeded }) := by
                rw [onTerminal.eq_def, hf]
                simp only [hst, if_false, ite_false]
              rw [h0]
              show (onTerminal rid (JobOutcome.succeeded d)
                  { s with ledger := setDebitStatus s.ledger rid EntryStatus.completed,
                           jobs := setJobStatus s.jobs rid JobStatus.succeeded }).2 = _
              have hfind1 : findDebit (setDebitStatus s.ledger rid EntryStatus.completed) rid
                  = some { e with status := EntryStatus.completed } := by
                rw [findDebit_setDebitStatus, hf]
                rfl
              rw [onTerminal.eq_def]
              show ((match findDebit (setDebitStatus s.ledger rid EntryStatus.completed) rid with
                | none => (SettleResult.unknownRun, _)
                | some e => _) : SettleResult × OrchState).2 = _
              rw [hfind1]
              simp
          | failed =>
              have h0 : onTerminal rid JobOutcome.failed s
                  = (SettleResult.settled,
                     { s with
                         wallets := fun a =>
                           if a = e.accountId
                           then (s.wallets e.accountId).credit e.currency e.amount
                           else s.wallets a,
                         ledger := setDebitStatus s.ledger rid EntryStatus.refunded
                           ++ [refundOf e],
                         jobs := setJobStatus s.jobs rid JobStatus.failed }) := by
                rw [onTerminal.eq_def, hf]
                simp only [hst, if_false, ite_false]
              rw [h0]
              have hfind1 : findDebit (setDebitStatus s.ledger rid EntryStatus.refunded
                    ++ [refundOf e]) rid
                  = some { e with status := EntryStatus.refunded } := by
                rw [findDebit_append_nondebit
                    (setDebitStatus s.ledger rid EntryStatus.refunded) (refundOf e) rid rfl,
                  findDebit_setDebitStatus, hf]
                rfl
              rw [onTerminal.eq_def]
              show ((match findDebit (setDebitStatus s.ledger rid EntryStatus.refunded
                  ++ [refundOf e]) rid with
                | none => (SettleResult.unknownRun, _)
                | some e => _) : SettleResult × OrchState).2 = _
              rw [hfind1]
              simp
  · intro e hf hst
    rw [onTerminal.eq_def, hf]
    simp [hst]

/-- Witness for C4: after the debit of a one-credit run and a first
`failed` settlement, delivering `failed` again changes nothing and reports
the run as already settled. -/
theorem terminal_callback_idempotent_witness :
    (onTerminal 0 JobOutcome.failed
        (onTerminal 0 JobOutcome.failed
          (runGatedFeature [⟨"skill_mapper", PlanTier.freeTier, Currency.free, 1⟩]
            0 0 "skill_mapper" PlanTier.freeTier (initState 1)).2).2).2
      = (onTerminal 0 JobOutcome.failed
          (runGatedFeature [⟨"skill_mapper", PlanTier.freeTier, Currency.free, 1⟩]
            0 0 "skill_mapper" PlanTier.freeTier (initState 1)).2).2
    ∧ onTerminal 0 JobOutcome.failed
        (onTerminal 0 JobOutcome.failed
          (runGatedFeature [⟨"skill_mapper", PlanTier.freeTier, Currency.free, 1⟩]
            0 0 "skill_mapper" PlanTier.freeTier (initState 1)).2).2
      = (SettleResult.alreadySettled,
         (onTerminal 0 JobOutcome.failed
          (runGatedFeature [⟨"skill_mapper", PlanTier.freeTier, Currency.free, 1⟩]
            0 0 "skill_mapper" PlanTier.freeTier (initState 1)).2).2) :=
  ⟨(terminal_callback_idempotent 0 JobOutcome.failed
      (runGatedFeature [⟨"skill_mapper", PlanTier.freeTier, Currency.free, 1⟩]
        0 0 "skill_mapper" PlanTier.freeTier (initState 1)).2).1,
   (terminal_callback_idempotent 0 JobOutcome.failed
      (onTerminal 0 JobOutcome.failed
        (runGatedFeature [⟨"skill_mapper", PlanTier.freeTier, Currency.free, 1⟩]
          0 0 "skill_mapper" PlanTier.freeTier (initState 1)).2).2).2
     { debitEntryOf 0 0 "skill_mapper" Currency.free 1 0 with
         status := EntryStatus.refunded }
     rfl (Or.inr rfl)⟩

theorem countEntries_singleton (x : LedgerEntry) (r : Nat) (k : EntryKind) :
    countEntries [x] r k
      = if (x.runId == r && x.kind == k) = true then 1 else 0 := by
  unfold countEntries
  rw [List.countP_cons, List.countP_nil]
  simp

theorem findDebit_append_left (l l2 : List LedgerEntry) (rid : Nat)
    (e : LedgerEntry) (h : findDebit l rid = some e) :
    findDebit (l ++ l2) rid = some e := by
  unfold findDebit at h ⊢
  rw [List.find?_append, h]
  rfl

theorem findDebit_setDebitStatus_ne (l : List LedgerEntry) (rid : Nat)
    (st : EntryStatus) (r : Nat) (hne : r ≠ rid) :
    findDebit (setDebitStatus l rid st) r = findDebit l r := by
  unfold findDebit setDebitStatus
  rw [List.find?_map]
  have hpf : ((fun e : LedgerEntry => e.runId == r && e.kind == EntryKind.debit) ∘
      (fun e => if (e.runId == rid && e.kind == EntryKind.debit) = true
        then { e with status := st } else e))
      = (fun e : LedgerEntry => e.runId == r && e.kind == EntryKind.debit) := by
    funext e
    by_cases hm : (e.runId == rid && e.kind == EntryKind.debit) = true
    · simp [Function.comp, hm]
    · simp [Function.comp, hm]
  rw [hpf]
  cases hf : l.find? (fun e => e.runId == r && e.kind == EntryKind.debit) with
  | none => rfl
  | some e =>
      have hp := List.find?_some hf
      simp only [Bool.and_eq_true, beq_iff_eq] at hp
      have h1 : (e.runId == rid) = false := by
        rw [beq_eq_false_iff_ne, hp.1]
        exact hne
      have hcond : (e.runId == rid && e.kind == EntryKind.debit) = false := by
        rw [h1]
        rfl
      show some (if (e.runId == rid && e.kind == EntryKind.debit) = true
          then { e with status := st } else e) = some e
      rw [hcond]
      rfl

theorem mem_setDebitStatus (l : List LedgerEntry) (rid : Nat) (st : EntryStatus)
    (x : LedgerEntry) (hx : x ∈ setDebitStatus l rid st) :
    ∃ y ∈ l, x.runId = y.runId ∧ x.kind = y.kind ∧ x.amount = y.amount := by
  simp only [setDebitStatus, List.mem_map] at hx
  obtain ⟨y, hy, hxy⟩ := hx
  subst hxy
  by_cases hm : (y.runId == rid && y.kind == EntryKind.debit) = true
  · rw [if_pos hm]
    exact ⟨y, hy, rfl, rfl, rfl⟩
  · rw [if_neg hm]
    exact ⟨y, hy, rfl, rfl, rfl⟩

theorem ledgerInv_extend_fresh (s : OrchState) (hinv : LedgerInv s)
    (E : LedgerEntry) (hE : E.runId = s.nextRunId)
    (hkind : (E.kind == EntryKind.refund) = false)
    (w2 : Nat → Wallet) (j2 : List Job) (nr : Nat) (hnr : s.nextRunId < nr) :
    LedgerInv { wallets := w2, ledger := s.ledger ++ [E], jobs := j2,
                nextRunId := nr } := by
  obtain ⟨hfr, href, huniq⟩ := hinv
  refine ⟨?_, ?_, ?_⟩
  · intro e he
    show e.runId < nr
    replace he : e ∈ s.ledger ++ [E] := he
    rcases List.mem_append.mp he with he | he
    · have := hfr e he
      omega
    · rw [List.mem_singleton] at he
      subst he
      omega
  · intro rid hc
    replace hc : 0 < countEntries (s.ledger ++ [E]) rid EntryKind.refund := hc
    have hc0 : countEntries [E] rid EntryKind.refund = 0 := by
      rw [countEntries_singleton]
      rw [show (E.runId == rid && E.kind == EntryKind.refund) = false by
        rw [hkind, Bool.and_false]]
      rfl
    rw [countEntries_append, hc0] at hc
    have hc2 : 0 < countEntries s.ledger rid EntryKind.refund := by omega
    obtain ⟨e, hfind, hst⟩ := href rid hc2
    exact ⟨e, findDebit_append_left _ _ _ _ hfind, hst⟩
  · intro rid
    constructor
    · show countEntries (s.ledger ++ [E]) rid EntryKind.debit ≤ 1
      rw [countEntries_append, countEntries_singleton]
      by_cases hr : rid = s.nextRunId
      · subst hr
        rw [countEntries_fresh s.ledger s.nextRunId hfr]
        split <;> omega
      · have h1 : (E.runId == rid) = false := by
          rw [beq_eq_false_iff_ne, hE]
          exact fun hh => hr hh.symm
        rw [show (E.runId == rid && E.kind == EntryKind.debit) = false by
          rw [h1, Bool.false_and]]
        have := (huniq rid).1
        rw [if_neg (by simp)]
        omega
    · show countEntries (s.ledger ++ [E]) rid EntryKind.refund ≤ 1
      rw [countEntries_append, countEntries_singleton]
      rw [show (E.runId == rid && E.kind == EntryKind.refund) = false by
        rw [hkind, Bool.and_false]]
      have := (huniq rid).2
      rw [if_neg (by simp)]
      omega

theorem ledgerInv_applyOp (cfg : List CostRule) (s : OrchState)
    (hinv : LedgerInv s) (op : Op) : LedgerInv (applyOp cfg s op) := by
  obtain ⟨hfr, href, huniq⟩ := hinv
  cases op with
  | runFeature a t f tier =>
      show LedgerInv (runGatedFeature cfg a t f tier s).2
      cases hres : resolveCost cfg f tier with
      | none =>
          have h0 : (runGatedFeature cfg a t f tier s).2 = s := by
            rw [runGatedFeature.eq_def, hres]
          rw [h0]
          exact ⟨hfr, href, huniq⟩
      | some p =>
          obtain ⟨cur, amt⟩ := p
          cases hdeb : (s.wallets a).debit cur amt with
          | none =>
              have h0 : (runGatedFeature cfg a t f tier s).2 = s := by
                rw [runGatedFeature.eq_def, hres]
                simp only [hdeb]
              rw [h0]
              exact ⟨hfr, href, huniq⟩
          | some w =>
              have h0 : (runGatedFeature cfg a t f tier s).2
                  = { wallets := fun x => if x = a then w else s.wallets x,
                      ledger := s.ledger
                        ++ [debitEntryOf a t f cur amt s.nextRunId],
                      jobs := s.jobs ++ [jobOf a f s.nextRunId],
                      nextRunId := s.nextRunId + 1 } := by
                rw [runGatedFeature.eq_def, hres]
                simp only [hdeb]
              rw [h0]
              exact ledgerInv_extend_fresh s ⟨hfr, href, huniq⟩
                (debitEntryOf a t f cur amt s.nextRunId) rfl rfl _ _ _
                (Nat.lt_succ_self _)
  | topup a t cur amt =>
      show LedgerInv (topUp a t cur amt s)
      exact ledgerInv_extend_fresh s ⟨hfr, href, huniq⟩
        { accountId := a, tenantId := t, feature := "topup", currency := cur,
          amount := amt, kind := EntryKind.topup, runId := s.nextRunId,
          status := EntryStatus.completed }
        rfl rfl _ _ _ (Nat.lt_succ_self _)
  | terminal rid oc =>
      show LedgerInv (onTerminal rid oc s).2
      cases hfind : findDebit s.ledger rid with
      | none =>
          have h0 : (onTerminal rid oc s).2 = s := by
            rw [onTerminal.eq_def, hfind]
          rw [h0]
          exact ⟨hfr, href, huniq⟩
      | some e =>
          have hemem := List.mem_of_find?_eq_some hfind
          have hrid : e.runId = rid := by
            have hp := List.find?_some hfind
            simp only [Bool.and_eq_true, beq_iff_eq] at hp
            exact hp.1
          by_cases hst : e.status = EntryStatus.completed
              ∨ e.status = EntryStatus.refunded
          · have h0 : (onTerminal rid oc s).2 = s := by
              rw [onTerminal.eq_def, hfind]
              simp [hst]
            rw [h0]
            exact ⟨hfr, href, huniq⟩
          · cases oc with
            | succeeded d =>
                have h0 : (onTerminal rid (JobOutcome.succeeded d) s).2
                    = { s with
                        ledger := setDebitStatus s.ledger rid EntryStatus.completed,
                        jobs := setJobStatus s.jobs rid JobStatus.succeeded } := by
                  rw [onTerminal.eq_def, hfind]
                  simp only [hst, if_false, ite_false]
                rw [h0]
                refine ⟨?_, ?_, ?_⟩
                · intro x hx
                  show x.runId < s.nextRunId
                  replace hx : x ∈ setDebitStatus s.ledger rid EntryStatus.completed := hx
                  obtain ⟨y, hy, hxr, _, _⟩ := mem_setDebitStatus _ _ _ x hx
                  rw [hxr]
                  exact hfr y hy
                · intro r hc
                  replace hc : 0 < countEntries
                      (setDebitStatus s.ledger rid EntryStatus.completed) r
                      EntryKind.refund := hc
                  rw [countEntries_setDebitStatus] at hc
                  obtain ⟨e2, hfind2, hst2⟩ := href r hc
                  show ∃ e3,
                      findDebit (setDebitStatus s.ledger rid EntryStatus.completed) r
                        = some e3 ∧ e3.status = EntryStatus.refunded
                  by_cases hrr : r = rid
                  · exfalso
                    subst hrr
                    rw [hfind] at hfind2
                    injection hfind2 with h3
                    exact hst (Or.inr (h3 ▸ hst2))
                  · rw [findDebit_setDebitStatus_ne s.ledger rid EntryStatus.completed r hrr]
                    exact ⟨e2, hfind2, hst2⟩
                · intro r
                  constructor
                  · show countEntries
                        (setDebitStatus s.ledger rid EntryStatus.completed) r
                        EntryKind.debit ≤ 1
                    rw [countEntries_setDebitStatus]
                    exact (huniq r).1
                  · show countEntries
                        (setDebitStatus s.ledger rid EntryStatus.completed) r
                        EntryKind.refund ≤ 1
                    rw [countEntries_setDebitStatus]
                    exact (huniq r).2
            | failed =>
                have h0 : (onTerminal rid JobOutcome.failed s).2
                    = { s with
                        wallets := fun a =>
                          if a = e.accountId
                          then (s.wallets e.accountId).credit e.currency e.amount
                          else s.wallets a,
                        ledger := setDebitStatus s.ledger rid EntryStatus.refunded
                          ++ [refundOf e],
                        jobs := setJobStatus s.jobs rid JobStatus.failed } := by
                  rw [onTerminal.eq_def, hfind]
                  simp only [hst, if_false, ite_false]
                rw [h0]
                refine ⟨?_, ?_, ?_⟩
                · intro x hx
                  show x.runId < s.nextRunId
                  replace hx : x ∈ setDebitStatus s.ledger rid EntryStatus.refunded
                      ++ [refundOf e] := hx
                  rcases List.mem_append.mp hx with hx | hx
                  · obtain ⟨y, hy, hxr, _, _⟩ := mem_setDebitStatus _ _ _ x hx
                    rw [hxr]
                    exact hfr y hy
                  · rw [List.mem_singleton] at hx
                    subst hx
                    show e.runId < s.nextRunId
                    exact hfr e hemem
                · intro r hc
                  replace hc : 0 < countEntries
                      (setDebitStatus s.ledger rid EntryStatus.refunded
                        ++ [refundOf e]) r EntryKind.refund := hc
                  rw [countEntries_append, countEntries_setDebitStatus] at hc
                  show ∃ e3,
                      findDebit (setDebitStatus s.ledger rid EntryStatus.refunded
                        ++ [refundOf e]) r = some e3
                      ∧ e3.status = EntryStatus.refunded
                  rw [findDebit_append_nondebit _ (refundOf e) r rfl]
                  by_cases hrr : r = rid
                  · subst hrr
                    rw [findDebit_setDebitStatus, hfind]
                    exact ⟨{ e with status := EntryStatus.refunded }, rfl, rfl⟩
                  · rw [findDebit_setDebitStatus_ne s.ledger rid EntryStatus.refunded r hrr]
                    have h1 : countEntries [refundOf e] r EntryKind.refund = 0 := by
                      rw [countEntries_singleton]
                      have h2 : ((refundOf e).runId == r) = false := by
                        rw [beq_eq_false_iff_ne]
                        show e.runId ≠ r
                        rw [hrid]
                        exact fun hh => hrr hh.symm
                      rw [show ((refundOf e).runId == r
                          && (refundOf e).kind == EntryKind.refund) = false by
                        rw [h2, Bool.false_and]]
                      rfl
                    rw [h1] at hc
                    have hc2 : 0 < countEntries s.ledger r EntryKind.refund := by omega
                    exact href r hc2
                · intro r
                  constructor
                  · show countEntries (setDebitStatus s.ledger rid EntryStatus.refunded
                        ++ [refundOf e]) r EntryKind.debit ≤ 1
                    rw [countEntries_append, countEntries_setDebitStatus,
                      countEntries_singleton]
                    rw [show ((refundOf e).runId == r
                        && (refundOf e).kind == EntryKind.debit) = false by
                      rw [show ((refundOf e).kind == EntryKind.debit) = false from rfl,
                        Bool.and_false]]
                    have := (huniq r).1
                    rw [if_neg (by simp)]
                    omega
                  · show countEntries (setDebitStatus s.ledger rid EntryStatus.refunded
                        ++ [refundOf e]) r EntryKind.refund ≤ 1
                    rw [countEntries_append, countEntries_setDebitStatus,
                      countEntries_singleton]
                    by_cases hrr : r = rid
                    · subst hrr
                      have h0c : countEntries s.ledger r EntryKind.refund = 0 := by
                        by_contra hne0
                        obtain ⟨e2, hfind2, hst2⟩ :=
                          href r (Nat.pos_of_ne_zero hne0)
                        rw [hfind] at hfind2
                        injection hfind2 with h3
                        exact hst (Or.inr (h3 ▸ hst2))
                      rw [h0c]
                      split <;> omega
                    · have h2 : ((refundOf e).runId == r) = false := by
                        rw [beq_eq_false_iff_ne]
                        show e.runId ≠ r
                        rw [hrid]
                        exact fun hh => hrr hh.symm
                      rw [show ((refundOf e).runId == r
                          && (refundOf e).kind == EntryKind.refund) = false by
                        rw [h2, Bool.false_and]]
                      have := (huniq r).2
                      rw [if_neg (by simp)]
                      omega

theorem ledgerInv_applyOps (cfg : List CostRule) (s : OrchState)
    (hinv : LedgerInv s) (ops : List Op) :
    LedgerInv (applyOps cfg s ops) := by
  induction ops generalizing s with
  | nil => exact hinv
  | cons op ops ih =>
      exact ih (applyOp cfg s op) (ledgerInv_applyOp cfg s hinv op)

/-- C5: starting from any state satisfying the ledger invariant (in
particular the initial state, whose ledger is empty), after any sequence of
Orchestrator operations and terminal callbacks the ledger contains at most
one debit entry and at most one refund entry for every `runId`. -/
theorem ledger_unique_entries (cfg : List CostRule) (s : OrchState)
    (hinv : LedgerInv s) (ops : List Op) (rid : Nat) :
    countEntries (applyOps cfg s ops).ledger rid EntryKind.debit ≤ 1
    ∧ countEntries (applyOps cfg s ops).ledger rid EntryKind.refund ≤ 1 :=
  (ledgerInv_applyOps cfg s hinv ops).2.2 rid

/-- Witness for C5: a run followed by its failed settlement and a duplicate
settlement leaves exactly one debit and one refund entry for run 0. -/
theorem ledger_unique_entries_witness :
    countEntries (applyOps [⟨"skill_mapper", PlanTier.freeTier, Currency.free, 1⟩]
        (initState 1)
        [Op.runFeature 0 0 "skill_mapper" PlanTier.freeTier,
         Op.terminal 0 JobOutcome.failed,
         Op.terminal 0 JobOutcome.failed]).ledger 0 EntryKind.debit ≤ 1
    ∧ countEntries (applyOps [⟨"skill_mapper", PlanTier.freeTier, Currency.free, 1⟩]
        (initState 1)
        [Op.runFeature 0 0 "skill_mapper" PlanTier.freeTier,
         Op.terminal 0 JobOutcome.failed,
         Op.terminal 0 JobOutcome.failed]).ledger 0 EntryKind.refund ≤ 1 :=
  ledger_unique_entries [⟨"skill_mapper", PlanTier.freeTier, Currency.free, 1⟩]
    (initState 1)
    ⟨fun e he => absurd he (List.not_mem_nil e),
     fun rid hc => absurd hc (by
       show ¬ 0 < countEntries [] rid EntryKind.refund
       simp [countEntries]),
     fun rid => ⟨by
       show countEntries [] rid EntryKind.debit ≤ 1
       simp [countEntries], by
       show countEntries [] rid EntryKind.refund ≤ 1
       simp [countEntries]⟩⟩
    [Op.runFeature 0 0 "skill_mapper" PlanTier.freeTier,
     Op.terminal 0 JobOutcome.failed,
     Op.terminal 0 JobOutcome.failed] 0

theorem debit_none_iff {w : Wallet} {cur : Currency} {amt : Int} :
    w.debit cur amt = none ↔ w.get cur < amt := by
  cases cur with
  | free =>
      simp only [Wallet.debit, Wallet.get]
      by_cases hle : amt ≤ w.freeBalance
      · rw [if_pos hle]
        constructor
        · intro h; cases h
        · intro h; omega
      · rw [if_neg hle]
        constructor
        · intro _; omega
        · intro _; rfl
  | paid =>
      simp only [Wallet.debit, Wallet.get]
      by_cases hle : amt ≤ w.paidBalance
      · rw [if_pos hle]
        constructor
        · intro h; cases h
        · intro h; omega
      · rw [if_neg hle]
        constructor
        · intro _; omega
        · intro _; rfl

/-- C7 (amended): `n` calls against the same account, serialized as the
spec's per-account atomic debit mandates, produce exactly
`min n (floor(B/c))` successes; every other call returns
`InsufficientCredits`; and the final balance of the charged pool is
`B - min n (floor(B/c)) * c`.  In particular two calls that would jointly
overdraw can never both succeed. -/
theorem concurrent_runs_serialize (cfg : List CostRule) (acct tenant : Nat)
    (feature : String) (tier : PlanTier) (cur : Currency) (c : Int)
    (hres : resolveCost cfg feature tier = some (cur, c)) (hc : 0 < c)
    (n : Nat) (s : OrchState) (hB : 0 ≤ Wallet.get (s.wallets acct) cur) :
    (runMany cfg acct tenant feature tier n s).1.length = n
    ∧ (runMany cfg acct tenant feature tier n s).1.countP RunResult.isStarted
        = min n ((Wallet.get (s.wallets acct) cur) / c).toNat
    ∧ (∀ r ∈ (runMany cfg acct tenant feature tier n s).1,
        RunResult.isStarted r = false → r = RunResult.insufficientCredits)
    ∧ Wallet.get ((runMany cfg acct tenant feature tier n s).2.wallets acct) cur
        = Wallet.get (s.wallets acct) cur
          - (min n ((Wallet.get (s.wallets acct) cur) / c).toNat : Nat) * c := by
  induction n generalizing s with
  | zero =>
      refine ⟨rfl, by simp [runMany], ?_, by simp [runMany]⟩
      intro r hr
      simp [runMany] at hr
  | succ n ih =>
      cases hdeb : (s.wallets acct).debit cur c with
      | none =>
          have hlt : Wallet.get (s.wallets acct) cur < c := debit_none_iff.mp hdeb
          have hdiv0 : (Wallet.get (s.wallets acct) cur) / c = 0 :=
            Int.ediv_eq_zero_of_lt hB hlt
          have hstep : runGatedFeature cfg acct tenant feature tier s
              = (RunResult.insufficientCredits, s) := by
            rw [runGatedFeature.eq_def, hres]
            simp [hdeb]
          have hrm : runMany cfg acct tenant feature tier (n + 1) s
              = (RunResult.insufficientCredits
                  :: (runMany cfg acct tenant feature tier n s).1,
                 (runMany cfg acct tenant feature tier n s).2) := by
            rw [runMany.eq_def]
            simp only [hstep]
          obtain ⟨ih1, ih2, ih3, ih4⟩ := ih s hB
          rw [hrm]
          refine ⟨?_, ?_, ?_, ?_⟩
          · simp [ih1]
          · rw [List.countP_cons]
            rw [show (RunResult.isStarted RunResult.insufficientCredits) = false from rfl]
            rw [ih2, hdiv0]
            simp
          · intro r hr
            rcases List.mem_cons.mp hr with hr | hr
            · intro _
              exact hr
            · exact ih3 r hr
          · rw [ih4, hdiv0]
            simp
      | some w =>
          have hle : c ≤ Wallet.get (s.wallets acct) cur := by
            by_contra hlt
            rw [debit_none_iff.mpr (by omega)] at hdeb
            cases hdeb
          have hw : Wallet.get w cur = Wallet.get (s.wallets acct) cur - c :=
            (debit_get hdeb).1
          have hstep : runGatedFeature cfg acct tenant feature tier s
              = (RunResult.jobStarted s.nextRunId,
                 { wallets := fun x => if x = acct then w else s.wallets x,
                   ledger := s.ledger
                     ++ [debitEntryOf acct tenant feature cur c s.nextRunId],
                   jobs := s.jobs ++ [jobOf acct feature s.nextRunId],
                   nextRunId := s.nextRunId + 1 }) := by
            rw [runGatedFeature.eq_def, hres]
            simp only [hdeb]
          have hrm : runMany cfg acct tenant feature tier (n + 1) s
              = (RunResult.jobStarted s.nextRunId
                  :: (runMany cfg acct tenant feature tier n
                    { wallets := fun x => if x = acct then w else s.wallets x,
                      ledger := s.ledger
                        ++ [debitEntryOf acct tenant feature cur c s.nextRunId],
                      jobs := s.jobs ++ [jobOf acct feature s.nextRunId],
                      nextRunId := s.nextRunId + 1 }).1,
                 (runMany cfg acct tenant feature tier n
                    { wallets := fun x => if x = acct then w else s.wallets x,
                      ledger := s.ledger
                        ++ [debitEntryOf acct tenant feature cur c s.nextRunId],
                      jobs := s.jobs ++ [jobOf acct feature s.nextRunId],
                      nextRunId := s.nextRunId + 1 }).2) := by
            rw [runMany.eq_def]
            simp only [hstep]
          have hS1get : Wallet.get
              (({ wallets := fun x => if x = acct then w else s.wallets x,
                  ledger := s.ledger
                    ++ [debitEntryOf acct tenant feature cur c s.nextRunId],
                  jobs := s.jobs ++ [jobOf acct feature s.nextRunId],
                  nextRunId := s.nextRunId + 1 } : OrchState).wallets acct) cur
              = Wallet.get (s.wallets acct) cur - c := by
            show Wallet.get (if acct = acct then w else s.wallets acct) cur = _
            rw [if_pos rfl, hw]
          obtain ⟨ih1, ih2, ih3, ih4⟩ := ih
            { wallets := fun x => if x = acct then w else s.wallets x,
              ledger := s.ledger
                ++ [debitEntryOf acct tenant feature cur c s.nextRunId],
              jobs := s.jobs ++ [jobOf acct feature s.nextRunId],
              nextRunId := s.nextRunId + 1 }
            (by rw [hS1get]; omega)
          rw [hS1get] at ih2 ih4
          have hdiv : (Wallet.get (s.wallets acct) cur) / c
              = (Wallet.get (s.wallets acct) cur - c) / c + 1 := by
            have h5 := Int.add_mul_ediv_right
              (Wallet.get (s.wallets acct) cur - c) 1 (by omega : c ≠ 0)
            simp only [one_mul] at h5
            rw [show Wallet.get (s.wallets acct) cur - c + c
                = Wallet.get (s.wallets acct) cur by ring] at h5
            rw [h5]
          have hnn : 0 ≤ (Wallet.get (s.wallets acct) cur - c) / c :=
            Int.ediv_nonneg (by omega) (by omega)
          have htn : ((Wallet.get (s.wallets acct) cur) / c).toNat
              = ((Wallet.get (s.wallets acct) cur - c) / c).toNat + 1 := by
            omega
          rw [hrm]
          refine ⟨?_, ?_, ?_, ?_⟩
          · simp [ih1]
          · rw [List.countP_cons]
            rw [show (RunResult.isStarted (RunResult.jobStarted s.nextRunId))
                = true from rfl]
            rw [ih2, htn, if_pos rfl]
            rw [Nat.succ_min_succ]
          · intro r hr
            rcases List.mem_cons.mp hr with hr | hr
            · subst hr
              intro hfalse
              cases hfalse
            · exact ih3 r hr
          · rw [ih4, htn, Nat.succ_min_succ]
            push_cast
            ring

/-- Witness for C7's amended theorem: two serialized calls against a
balance of 1 with cost 1 give exactly one success and final balance 0. -/
theorem concurrent_runs_serialize_witness :
    (runMany [⟨"skill_mapper", PlanTier.freeTier, Currency.free, 1⟩] 0 0
        "skill_mapper" PlanTier.freeTier 2 (initState 1)).1.countP
        RunResult.isStarted
      = min 2 ((Wallet.get ((initState 1).wallets 0) Currency.free) / 1).toNat
    ∧ Wallet.get ((runMany [⟨"skill_mapper", PlanTier.freeTier, Currency.free, 1⟩]
        0 0 "skill_mapper" PlanTier.freeTier 2 (initState 1)).2.wallets 0)
        Currency.free
      = Wallet.get ((initState 1).wallets 0) Currency.free
        - (min 2 ((Wallet.get ((initState 1).wallets 0) Currency.free) / 1).toNat
            : Nat) * 1 :=
  ⟨(concurrent_runs_serialize
      [⟨"skill_mapper", PlanTier.freeTier, Currency.free, 1⟩] 0 0 "skill_mapper"
      PlanTier.freeTier Currency.free 1 rfl (by omega) 2 (initState 1)
      (by show (0:Int) ≤ 1; omega)).2.1,
   (concurrent_runs_serialize
      [⟨"skill_mapper", PlanTier.freeTier, Currency.free, 1⟩] 0 0 "skill_mapper"
      PlanTier.freeTier Currency.free 1 rfl (by omega) 2 (initState 1)
      (by show (0:Int) ≤ 1; omega)).2.2.2⟩

/-- C7 counterexample: the claim as stated says exactly `floor(B/c)` of the
`N` calls succeed, for every `N`; with one call against a balance of 2 and
cost 1 only one success can occur while `floor(B/c) = 2`. -/
theorem concurrent_runs_counterexample :
    (runMany [⟨"skill_mapper", PlanTier.freeTier, Currency.free, 1⟩] 0 0
        "skill_mapper" PlanTier.freeTier 1 (initState 2)).1.countP
        RunResult.isStarted
      ≠ ((Wallet.get ((initState 2).wallets 0) Currency.free) / 1).toNat := by
  have h1 : (runMany [⟨"skill_mapper", PlanTier.freeTier, Currency.free, 1⟩] 0 0
      "skill_mapper" PlanTier.freeTier 1 (initState 2)).1.countP
      RunResult.isStarted = 1 := rfl
  have h2 : ((Wallet.get ((initState 2).wallets 0) Currency.free) / 1).toNat
      = 2 := rfl
  omega

end CareerAI
